import Mathlib

/-!
# Verification of the Milaidy sandbox execution engine

Shallow embedding of the container-exec core: the command tokenizer,
the per-backend argv construction (Docker / Apple container), and the
process-dispatch step, together with theorems settling the spec claims.

The engine implementation module (`sandbox-engine`) is not present in the
repository snapshot; only its dispatch tests are (`src/entry.ts`).  The
definitions below are therefore modelled from the spec (sections 3, 4.1,
4.2, 4.3) and pinned on the concrete expectations recorded in those tests.
-/

namespace SandboxEngine

/-- The single-quote character (code 39). -/
def squoteChar : Char := Char.ofNat 39

/-- The double-quote character (code 34). -/
def dquoteChar : Char := Char.ofNat 34

/-- The backtick character (code 96). -/
def backtickChar : Char := Char.ofNat 96

/-- Modelled from the spec: unquoted whitespace that separates tokens
(spec 4.1 "splits on runs of unquoted whitespace"); newline is excluded
here because it is a rejected metacharacter. -/
def isWs (c : Char) : Bool := c = ' ' || c = '\t'

/-- Modelled from the spec: the rejected shell metacharacters
semicolon, pipe, ampersand, dollar, backtick, greater-than, less-than
and newline (spec 4.1). -/
def isMeta (c : Char) : Bool :=
  c = ';' || c = '|' || c = '&' || c = '$' || c = backtickChar ||
  c = '>' || c = '<' || c = '\n'

/-- A quote character: single or double quote. -/
def isQuoteChar (c : Char) : Bool := c = squoteChar || c = dquoteChar

/-- Quote state of the scanner: outside quotes, inside a single-quoted
span, or inside a double-quoted span. -/
inductive QMode
  | plain
  | inSingle
  | inDouble
deriving DecidableEq

/-- Modelled from the spec: the command tokenizer of the sandbox engine
(the `sandbox-engine` module is absent from the snapshot).  Scans the
character list with a quote-state automaton: unquoted whitespace ends the
current token, matched quote spans join the current token with the quotes
stripped and their content taken literally, an unquoted metacharacter or
an unterminated quote rejects (`none`), per spec 4.1.
Arguments: remaining input, quote mode, current token characters in
reverse, and whether a token is in progress. -/
def tokenizeAux : List Char → QMode → List Char → Bool → Option (List String)
  | [], .plain, acc, started =>
      if started then some [String.mk acc.reverse] else some []
  | [], .inSingle, _, _ => none
  | [], .inDouble, _, _ => none
  | c :: rest, .plain, acc, started =>
      if c = squoteChar then tokenizeAux rest .inSingle acc true
      else if c = dquoteChar then tokenizeAux rest .inDouble acc true
      else if isWs c then
        if started then
          (tokenizeAux rest .plain [] false).map
            (fun toks => String.mk acc.reverse :: toks)
        else tokenizeAux rest .plain [] false
      else if isMeta c then none
      else tokenizeAux rest .plain (c :: acc) true
  | c :: rest, .inSingle, acc, started =>
      if c = squoteChar then tokenizeAux rest .plain acc started
      else tokenizeAux rest .inSingle (c :: acc) started
  | c :: rest, .inDouble, acc, started =>
      if c = dquoteChar then tokenizeAux rest .plain acc started
      else tokenizeAux rest .inDouble (c :: acc) started

/-- Modelled from the spec: tokenize a command string into an argument
vector, or `none` on a `ShellSyntaxError` (spec 4.1). -/
def tokenize (s : String) : Option (List String) :=
  tokenizeAux s.data .plain [] false

/-- A command string containing a single-quoted span, for the concrete
dispatch scenarios: `echo 'hello world'`. -/
def cmdEchoHello : String :=
  "echo " ++ String.mk [squoteChar] ++ "hello world" ++ String.mk [squoteChar]

/-- A command string containing a double-quoted span:
`python -c "print(42)"`. -/
def cmdPython : String :=
  "python -c " ++ String.mk [dquoteChar] ++ "print(42)" ++ String.mk [dquoteChar]

/-- Modelled from the spec: an `ExecRequest` (spec 3): container id,
optional working directory, the command line, optional timeout. -/
structure ExecRequest where
  containerId : String
  workdir : Option String := none
  command : String
  timeoutMs : Option Nat := none

/-- Modelled from the spec: an `ExecResult` (spec 3): captured stdout and
stderr byte sequences and the process exit code. -/
structure ExecResult where
  stdout : List Nat
  stderr : List Nat
  exitCode : Int
deriving DecidableEq

/-- One invocation of the Process Runner spawn entry point: a binary name
and its argument vector. -/
structure SpawnCall where
  binary : String
  args : List String
deriving DecidableEq

/-- Modelled from the spec: the error taxonomy of `execInContainer`
(spec 7): shell-syntax rejection, unreachable container, timeout. -/
inductive EngineError
  | shellSyntaxError (msg : String)
  | containerUnavailableError
  | timeoutError
deriving DecidableEq

/-- Behaviour of the external world for one spawn call: either the
container runtime reaches the container and the process exits with the
given outputs, exit code and running time in milliseconds, or the
container is unreachable. -/
inductive ProcOutcome
  | exits (stdout stderr : List Nat) (exitCode : Int) (durationMs : Nat)
  | unreachable

/-- Modelled from the spec: the closed set of runtime backends
(spec 3 `EngineIdentity`): Docker or Apple container. -/
inductive Backend
  | docker
  | appleContainer
deriving DecidableEq

/-- Modelled from the spec: each backend's fixed CLI binary (spec 4.2). -/
def Backend.binary : Backend → String
  | .docker => "docker"
  | .appleContainer => "container"

/-- Modelled from the spec: backend argv construction (spec 4.2).
Docker: `exec`, the `-w workdir` pair when `workdir` is set, the
container id, then the tokens verbatim.  Apple container: `exec`, the
container id, then the tokens; `workdir` is ignored. -/
def buildArgs : Backend → ExecRequest → List String → List String
  | .docker, req, toks =>
      "exec" ::
        ((match req.workdir with
          | some w => ["-w", w]
          | none => []) ++ req.containerId :: toks)
  | .appleContainer, req, toks => "exec" :: req.containerId :: toks

/-- The effects performed by one `execInContainer` call: the spawn calls
issued to the Process Runner and the kill (forced termination) calls. -/
structure ExecTrace where
  spawns : List SpawnCall
  kills : List SpawnCall
deriving DecidableEq

/-- The rejection message asserted by the dispatch test in
`src/entry.ts`. -/
def shellSyntaxMessage : String :=
  "Container exec command contains unsupported shell syntax"

/-- Modelled from the spec: `execInContainer` (spec 4.2), the sole engine
operation; the `sandbox-engine` implementation module is absent from the
snapshot.  Tokenizes the command (rejecting with `ShellSyntaxError` and
no spawn), builds the backend argv, spawns through the Process Runner,
and either returns the collected `ExecResult`, fails with
`ContainerUnavailableError`, or — when `timeoutMs` is supplied and the
process runs longer — kills the process and fails with `TimeoutError`.
The environment `env` gives the outcome of each spawn; the returned
trace records the spawn and kill calls performed. -/
def execInContainer (b : Backend) (env : SpawnCall → ProcOutcome)
    (req : ExecRequest) : Except EngineError ExecResult × ExecTrace :=
  match tokenize req.command with
  | none =>
      (Except.error (EngineError.shellSyntaxError shellSyntaxMessage), ⟨[], []⟩)
  | some toks =>
      let call : SpawnCall := ⟨b.binary, buildArgs b req toks⟩
      match env call with
      | .unreachable =>
          (Except.error EngineError.containerUnavailableError, ⟨[call], []⟩)
      | .exits out err code dur =>
          match req.timeoutMs with
          | none => (Except.ok ⟨out, err, code⟩, ⟨[call], []⟩)
          | some t =>
              if dur ≤ t then (Except.ok ⟨out, err, code⟩, ⟨[call], []⟩)
              else (Except.error EngineError.timeoutError, ⟨[call], [call]⟩)

/-- Claim-side predicate, following the spec's words: the string contains
at least one of the shell metacharacters outside of single/double quotes.
Same quote-state automaton as the tokenizer, but only detecting. -/
def hasUnquotedMetaAux : List Char → QMode → Bool
  | [], _ => false
  | c :: rest, .plain =>
      if c = squoteChar then hasUnquotedMetaAux rest .inSingle
      else if c = dquoteChar then hasUnquotedMetaAux rest .inDouble
      else if isWs c then hasUnquotedMetaAux rest .plain
      else if isMeta c then true
      else hasUnquotedMetaAux rest .plain
  | c :: rest, .inSingle =>
      if c = squoteChar then hasUnquotedMetaAux rest .plain
      else hasUnquotedMetaAux rest .inSingle
  | c :: rest, .inDouble =>
      if c = dquoteChar then hasUnquotedMetaAux rest .plain
      else hasUnquotedMetaAux rest .inDouble

/-- The string contains an unquoted shell metacharacter. -/
def hasUnquotedMeta (s : String) : Bool := hasUnquotedMetaAux s.data .plain

/-- Claim-side predicate, following the spec's words: the string contains
an unterminated single or double quote. -/
def hasUntermQuoteAux : List Char → QMode → Bool
  | [], .plain => false
  | [], .inSingle => true
  | [], .inDouble => true
  | c :: rest, .plain =>
      if c = squoteChar then hasUntermQuoteAux rest .inSingle
      else if c = dquoteChar then hasUntermQuoteAux rest .inDouble
      else if isWs c then hasUntermQuoteAux rest .plain
      else if isMeta c then hasUntermQuoteAux rest .plain
      else hasUntermQuoteAux rest .plain
  | c :: rest, .inSingle =>
      if c = squoteChar then hasUntermQuoteAux rest .plain
      else hasUntermQuoteAux rest .inSingle
  | c :: rest, .inDouble =>
      if c = dquoteChar then hasUntermQuoteAux rest .plain
      else hasUntermQuoteAux rest .inDouble

/-- The string contains an unterminated quote. -/
def hasUntermQuote (s : String) : Bool := hasUntermQuoteAux s.data .plain

/-- A string with an unquoted metacharacter or an unterminated quote is
rejected by the tokenizer, from any scanner state. -/
theorem tokenizeAux_rejects :
    ∀ (l : List Char) (m : QMode) (acc : List Char) (started : Bool),
      (hasUnquotedMetaAux l m || hasUntermQuoteAux l m) = true →
      tokenizeAux l m acc started = none
  | [], m, acc, started, h => by
      cases m with
      | plain => simp [hasUnquotedMetaAux, hasUntermQuoteAux] at h
      | inSingle => rfl
      | inDouble => rfl
  | c :: rest, m, acc, started, h => by
      cases m with
      | plain =>
          by_cases hsq : c = squoteChar
          · simp only [hasUnquotedMetaAux, hasUntermQuoteAux, tokenizeAux,
              hsq, if_true] at h ⊢
            exact tokenizeAux_rejects rest .inSingle acc true h
          · by_cases hdq : c = dquoteChar
            · simp only [hasUnquotedMetaAux, hasUntermQuoteAux, tokenizeAux,
                hsq, hdq, if_false, if_true] at h ⊢
              exact tokenizeAux_rejects rest .inDouble acc true h
            · by_cases hws : isWs c = true
              · simp only [hasUnquotedMetaAux, hasUntermQuoteAux, tokenizeAux,
                  hsq, hdq, hws, if_false, if_true] at h ⊢
                cases started with
                | false => exact tokenizeAux_rejects rest .plain [] false h
                | true =>
                    rw [tokenizeAux_rejects rest .plain [] false h]
                    rfl
              · by_cases hmt : isMeta c = true
                · simp only [tokenizeAux, hsq, hdq, hws, hmt, if_false,
                    if_true]
                  rfl
                · simp only [hasUnquotedMetaAux, hasUntermQuoteAux,
                    tokenizeAux, hsq, hdq, hws, hmt, if_false] at h ⊢
                  exact tokenizeAux_rejects rest .plain (c :: acc) true h
      | inSingle =>
          by_cases hsq : c = squoteChar
          · simp only [hasUnquotedMetaAux, hasUntermQuoteAux, tokenizeAux,
              hsq, if_true] at h ⊢
            exact tokenizeAux_rejects rest .plain acc started h
          · simp only [hasUnquotedMetaAux, hasUntermQuoteAux, tokenizeAux,
              hsq, if_false] at h ⊢
            exact tokenizeAux_rejects rest .inSingle (c :: acc) started h
      | inDouble =>
          by_cases hdq : c = dquoteChar
          · simp only [hasUnquotedMetaAux, hasUntermQuoteAux, tokenizeAux,
              hdq, if_true] at h ⊢
            exact tokenizeAux_rejects rest .plain acc started h
          · simp only [hasUnquotedMetaAux, hasUntermQuoteAux, tokenizeAux,
              hdq, if_false] at h ⊢
            exact tokenizeAux_rejects rest .inDouble (c :: acc) started h

/-- On a rejected command, `execInContainer` is exactly the shell-syntax
failure with an empty effect trace. -/
theorem execInContainer_of_tokenize_none (b : Backend)
    (env : SpawnCall → ProcOutcome) (req : ExecRequest)
    (h : tokenize req.command = none) :
    execInContainer b env req =
      (Except.error (EngineError.shellSyntaxError shellSyntaxMessage),
        ⟨[], []⟩) := by
  unfold execInContainer
  rw [h]

/-- On an accepted command, exactly one spawn call is issued: the
backend's binary with the backend-built argv. -/
theorem spawns_of_tokenize (b : Backend) (env : SpawnCall → ProcOutcome)
    (req : ExecRequest) (toks : List String)
    (h : tokenize req.command = some toks) :
    (execInContainer b env req).2.spawns =
      [⟨b.binary, buildArgs b req toks⟩] := by
  unfold execInContainer
  rw [h]
  dsimp only
  cases env ⟨b.binary, buildArgs b req toks⟩ with
  | unreachable => rfl
  | exits out err code dur =>
      cases req.timeoutMs with
      | none => rfl
      | some t => by_cases hd : dur ≤ t <;> simp [hd]

/-- The Docker argv expected for the `echo 'hello world'` request. -/
def dockerEchoArgv : List String :=
  ["exec", "-w", "/workspace", "cid-1", "echo", "hello world"]

/-- The Apple-container argv expected for the `python -c "print(42)"`
request. -/
def applePythonArgv : List String :=
  ["exec", "cid-2", "python", "-c", "print(42)"]

/-- **C1.** Any request whose command contains an unquoted shell
metacharacter (one of semicolon, pipe, ampersand, dollar, backtick,
greater-than, less-than, newline outside single/double quotes) or an
unterminated quote makes `execInContainer`, on any backend and any
environment, fail with `ShellSyntaxError`; the effect trace is empty, so
the Process Runner's spawn entry point is never invoked and no partial
effect is performed. -/
theorem exec_rejects_unquoted_metachar (b : Backend)
    (env : SpawnCall → ProcOutcome) (req : ExecRequest)
    (h : (hasUnquotedMeta req.command || hasUntermQuote req.command) = true) :
    execInContainer b env req =
      (Except.error (EngineError.shellSyntaxError shellSyntaxMessage),
        ⟨[], []⟩) :=
  execInContainer_of_tokenize_none b env req
    (tokenizeAux_rejects req.command.data .plain [] false h)

/-- Witness for C1 at the test scenario `echo ok; whoami`. -/
theorem exec_rejects_unquoted_metachar_witness :
    (hasUnquotedMeta "echo ok; whoami" ||
      hasUntermQuote "echo ok; whoami") = true ∧
    execInContainer Backend.docker (fun _ => ProcOutcome.unreachable)
        { containerId := "cid-3", command := "echo ok; whoami" } =
      (Except.error (EngineError.shellSyntaxError shellSyntaxMessage),
        ⟨[], []⟩) :=
  ⟨by decide,
    exec_rejects_unquoted_metachar Backend.docker
      (fun _ => ProcOutcome.unreachable)
      { containerId := "cid-3", command := "echo ok; whoami" } (by decide)⟩

/-- **C2.** The Docker backend, on the request with container `cid-1`,
workdir `/workspace` and command `echo 'hello world'`, spawns the binary
`docker` with exactly the argv
`["exec", "-w", "/workspace", "cid-1", "echo", "hello world"]`, and
neither `sh` nor `-c` occurs anywhere in that vector. -/
theorem docker_dispatch_echo_hello (env : SpawnCall → ProcOutcome) :
    (execInContainer Backend.docker env
        { containerId := "cid-1", workdir := some "/workspace",
          command := cmdEchoHello }).2.spawns =
      [⟨"docker", dockerEchoArgv⟩] ∧
    dockerEchoArgv.contains "sh" = false ∧
    dockerEchoArgv.contains "-c" = false := by
  refine ⟨?_, by decide, by decide⟩
  rw [spawns_of_tokenize Backend.docker env _ ["echo", "hello world"]
    (by decide)]
  rfl

/-- Witness for C2 at a concrete environment. -/
theorem docker_dispatch_echo_hello_witness :
    (execInContainer Backend.docker (fun _ => ProcOutcome.unreachable)
        { containerId := "cid-1", workdir := some "/workspace",
          command := cmdEchoHello }).2.spawns =
      [⟨"docker", dockerEchoArgv⟩] ∧
    dockerEchoArgv.contains "sh" = false ∧
    dockerEchoArgv.contains "-c" = false :=
  docker_dispatch_echo_hello (fun _ => ProcOutcome.unreachable)

/-- **C3.** The Apple-container backend, on the request with container
`cid-2` and command `python -c "print(42)"`, spawns the binary
`container` with exactly the argv
`["exec", "cid-2", "python", "-c", "print(42)"]` (double quotes stripped
from the third token) and no `sh` wrapper. -/
theorem apple_dispatch_python (env : SpawnCall → ProcOutcome) :
    (execInContainer Backend.appleContainer env
        { containerId := "cid-2", command := cmdPython }).2.spawns =
      [⟨"container", applePythonArgv⟩] ∧
    applePythonArgv.contains "sh" = false := by
  refine ⟨?_, by decide⟩
  rw [spawns_of_tokenize Backend.appleContainer env _
    ["python", "-c", "print(42)"] (by decide)]
  rfl

/-- Witness for C3 at a concrete environment. -/
theorem apple_dispatch_python_witness :
    (execInContainer Backend.appleContainer (fun _ => ProcOutcome.unreachable)
        { containerId := "cid-2", command := cmdPython }).2.spawns =
      [⟨"container", applePythonArgv⟩] ∧
    applePythonArgv.contains "sh" = false :=
  apple_dispatch_python (fun _ => ProcOutcome.unreachable)

/-- **C4.** Tokenizing `echo 'hello world'` yields exactly the two tokens
`echo` and `hello world`: the matched single-quote span becomes one token
with the quotes stripped and the inner space preserved, with no escape
interpretation or substitution. -/
theorem tokenize_echo_single_quotes :
    tokenize cmdEchoHello = some ["echo", "hello world"] := by decide

/-- On an accepted command whose process exits within any supplied
timeout, the call returns the collected result and kills nothing. -/
theorem execInContainer_completes (b : Backend) (env : SpawnCall → ProcOutcome)
    (req : ExecRequest) (toks : List String) (out err : List Nat) (code : Int)
    (dur : Nat)
    (htok : tokenize req.command = some toks)
    (henv : env ⟨b.binary, buildArgs b req toks⟩ =
      ProcOutcome.exits out err code dur)
    (ht : ∀ t, req.timeoutMs = some t → dur ≤ t) :
    execInContainer b env req =
      (Except.ok ⟨out, err, code⟩,
        ⟨[⟨b.binary, buildArgs b req toks⟩], []⟩) := by
  unfold execInContainer
  rw [htok]
  dsimp only
  rw [henv]
  dsimp only
  cases hto : req.timeoutMs with
  | none => rfl
  | some t =>
      dsimp only
      rw [if_pos (ht t hto)]

/-- On an accepted command whose process outlives the supplied timeout,
the call fails with `TimeoutError` and the single spawned process is
killed. -/
theorem execInContainer_times_out (b : Backend) (env : SpawnCall → ProcOutcome)
    (req : ExecRequest) (toks : List String) (out err : List Nat) (code : Int)
    (dur t : Nat)
    (htok : tokenize req.command = some toks)
    (ht : req.timeoutMs = some t)
    (henv : env ⟨b.binary, buildArgs b req toks⟩ =
      ProcOutcome.exits out err code dur)
    (hd : ¬ dur ≤ t) :
    execInContainer b env req =
      (Except.error EngineError.timeoutError,
        ⟨[⟨b.binary, buildArgs b req toks⟩],
          [⟨b.binary, buildArgs b req toks⟩]⟩) := by
  unfold execInContainer
  rw [htok]
  dsimp only
  rw [henv, ht]
  dsimp only
  rw [if_neg hd]

/-- On an accepted command whose container is unreachable, the call fails
with `ContainerUnavailableError`. -/
theorem execInContainer_unreachable (b : Backend) (env : SpawnCall → ProcOutcome)
    (req : ExecRequest) (toks : List String)
    (htok : tokenize req.command = some toks)
    (henv : env ⟨b.binary, buildArgs b req toks⟩ = ProcOutcome.unreachable) :
    execInContainer b env req =
      (Except.error EngineError.containerUnavailableError,
        ⟨[⟨b.binary, buildArgs b req toks⟩], []⟩) := by
  unfold execInContainer
  rw [htok]
  dsimp only
  rw [henv]

/-- **C5.** `execInContainer` fails with `TimeoutError` only when the
request supplied a `timeoutMs` and the spawned process did not exit
within it; in that case the one spawned process is killed before the
error is surfaced (the kill trace equals the non-empty spawn trace), and
the error outcome carries no partial `ExecResult`. -/
theorem timeout_only_when_exceeded (b : Backend)
    (env : SpawnCall → ProcOutcome) (req : ExecRequest)
    (h : (execInContainer b env req).1 =
      Except.error EngineError.timeoutError) :
    ∃ toks t out err code dur,
      tokenize req.command = some toks ∧
      req.timeoutMs = some t ∧
      env ⟨b.binary, buildArgs b req toks⟩ =
        ProcOutcome.exits out err code dur ∧
      t < dur ∧
      (execInContainer b env req).2.kills =
        (execInContainer b env req).2.spawns ∧
      (execInContainer b env req).2.spawns ≠ [] := by
  cases htok : tokenize req.command with
  | none =>
      rw [execInContainer_of_tokenize_none b env req htok] at h
      simp at h
  | some toks =>
      cases henv : env ⟨b.binary, buildArgs b req toks⟩ with
      | unreachable =>
          rw [execInContainer_unreachable b env req toks htok henv] at h
          simp at h
      | exits out err code dur =>
          cases hto : req.timeoutMs with
          | none =>
              rw [execInContainer_completes b env req toks out err code dur
                htok henv (fun t hti => by rw [hto] at hti; cases hti)] at h
              simp at h
          | some t =>
              by_cases hd : dur ≤ t
              · rw [execInContainer_completes b env req toks out err code dur
                  htok henv (fun u hu => by
                    rw [hto] at hu
                    cases hu
                    exact hd)] at h
                simp at h
              · have hrun := execInContainer_times_out b env req toks out err
                  code dur t htok hto henv hd
                exact ⟨toks, t, out, err, code, dur, rfl, rfl, henv,
                  Nat.lt_of_not_le hd, by rw [hrun], by rw [hrun]; simp⟩

/-- Witness for C5: a 5 ms process against a 3 ms timeout. -/
theorem timeout_only_when_exceeded_witness :
    ∃ toks t out err code dur,
      tokenize "sleep" = some toks ∧
      (some 3 : Option Nat) = some t ∧
      (fun _ => ProcOutcome.exits [] [] 0 5)
          (⟨Backend.docker.binary,
            buildArgs Backend.docker
              { containerId := "cid-5", command := "sleep",
                timeoutMs := some 3 } toks⟩ : SpawnCall) =
        ProcOutcome.exits out err code dur ∧
      t < dur ∧
      (execInContainer Backend.docker (fun _ => ProcOutcome.exits [] [] 0 5)
          { containerId := "cid-5", command := "sleep",
            timeoutMs := some 3 }).2.kills =
        (execInContainer Backend.docker (fun _ => ProcOutcome.exits [] [] 0 5)
          { containerId := "cid-5", command := "sleep",
            timeoutMs := some 3 }).2.spawns ∧
      (execInContainer Backend.docker (fun _ => ProcOutcome.exits [] [] 0 5)
          { containerId := "cid-5", command := "sleep",
            timeoutMs := some 3 }).2.spawns ≠ [] :=
  timeout_only_when_exceeded Backend.docker
    (fun _ => ProcOutcome.exits [] [] 0 5)
    { containerId := "cid-5", command := "sleep", timeoutMs := some 3 }
    rfl

/-- **C6.** An accepted command whose process exits with a nonzero exit
code (within any supplied timeout) yields a normal successful
`ExecResult` carrying that exit code, not an error; and the error
taxonomy has exactly the three kinds `ShellSyntaxError`,
`ContainerUnavailableError`, `TimeoutError`. -/
theorem nonzero_exit_is_success (b : Backend) (env : SpawnCall → ProcOutcome)
    (req : ExecRequest) (toks : List String) (out err : List Nat) (code : Int)
    (dur : Nat)
    (htok : tokenize req.command = some toks)
    (henv : env ⟨b.binary, buildArgs b req toks⟩ =
      ProcOutcome.exits out err code dur)
    (ht : ∀ t, req.timeoutMs = some t → dur ≤ t)
    (hcode : code ≠ 0) :
    (execInContainer b env req).1 = Except.ok ⟨out, err, code⟩ ∧
    (∀ e : EngineError, (∃ m, e = EngineError.shellSyntaxError m) ∨
      e = EngineError.containerUnavailableError ∨
      e = EngineError.timeoutError) := by
  refine ⟨?_, fun e => by cases e with
    | shellSyntaxError m => exact Or.inl ⟨m, rfl⟩
    | containerUnavailableError => exact Or.inr (Or.inl rfl)
    | timeoutError => exact Or.inr (Or.inr rfl)⟩
  rw [execInContainer_completes b env req toks out err code dur htok henv ht]

/-- Witness for C6: exit code 7 surfaces as a successful result. -/
theorem nonzero_exit_is_success_witness :
    (execInContainer Backend.docker (fun _ => ProcOutcome.exits [] [] 7 1)
        { containerId := "cid-6", command := "false" }).1 =
      Except.ok ⟨[], [], 7⟩ ∧
    (∀ e : EngineError, (∃ m, e = EngineError.shellSyntaxError m) ∨
      e = EngineError.containerUnavailableError ∨
      e = EngineError.timeoutError) :=
  nonzero_exit_is_success Backend.docker (fun _ => ProcOutcome.exits [] [] 7 1)
    { containerId := "cid-6", command := "false" } ["false"] [] [] 7 1
    (by decide) rfl (fun t ht => by cases ht) (by decide)

/-- Counterexample to C7 as stated: with `workdir` absent and command
`ls -w`, the Docker argv still contains the string `-w` — it arrives
verbatim from the command tokens — so "no `-w` flag present anywhere in
the vector" fails. -/
theorem docker_workdir_absent_cex :
    ({ containerId := "cid-9", command := "ls -w" } : ExecRequest).workdir
        = none ∧
    (execInContainer Backend.docker (fun _ => ProcOutcome.unreachable)
        { containerId := "cid-9", command := "ls -w" }).2.spawns =
      [⟨"docker", ["exec", "cid-9", "ls", "-w"]⟩] ∧
    (["exec", "cid-9", "ls", "-w"] : List String).contains "-w" = true := by
  refine ⟨rfl, ?_, by decide⟩
  rw [spawns_of_tokenize Backend.docker _ _ ["ls", "-w"] (by decide)]
  rfl

/-- **C7 (amended).** For every request the Docker backend accepts: when
`workdir` is absent the spawned argv is exactly
`"exec" :: containerId :: tokens` — the engine inserts no `-w` flag and
no workdir entry, though command tokens may themselves equal `-w` — and
when `workdir` is set the pair `-w`, workdir appears immediately after
`exec` and before the container id. -/
theorem docker_workdir_argv (env : SpawnCall → ProcOutcome)
    (req : ExecRequest) (toks : List String)
    (h : tokenize req.command = some toks) :
    (req.workdir = none →
      (execInContainer Backend.docker env req).2.spawns =
        [⟨"docker", "exec" :: req.containerId :: toks⟩]) ∧
    (∀ w, req.workdir = some w →
      (execInContainer Backend.docker env req).2.spawns =
        [⟨"docker", "exec" :: "-w" :: w :: req.containerId :: toks⟩]) := by
  constructor
  · intro hw
    rw [spawns_of_tokenize Backend.docker env req toks h]
    simp [buildArgs, Backend.binary, hw]
  · intro w hw
    rw [spawns_of_tokenize Backend.docker env req toks h]
    simp [buildArgs, Backend.binary, hw]

/-- Witness for C7 (amended): one request without and one with a
workdir. -/
theorem docker_workdir_argv_witness :
    (execInContainer Backend.docker (fun _ => ProcOutcome.unreachable)
        { containerId := "cid-7", command := "ls" }).2.spawns =
      [⟨"docker", "exec" :: "cid-7" :: ["ls"]⟩] ∧
    (execInContainer Backend.docker (fun _ => ProcOutcome.unreachable)
        { containerId := "cid-7", workdir := some "/tmp",
          command := "ls" }).2.spawns =
      [⟨"docker", "exec" :: "-w" :: "/tmp" :: "cid-7" :: ["ls"]⟩] :=
  ⟨(docker_workdir_argv (fun _ => ProcOutcome.unreachable)
      { containerId := "cid-7", command := "ls" } ["ls"] (by decide)).1 rfl,
    (docker_workdir_argv (fun _ => ProcOutcome.unreachable)
      { containerId := "cid-7", workdir := some "/tmp", command := "ls" }
      ["ls"] (by decide)).2 "/tmp" rfl⟩

/-- **C10.** Whenever `execInContainer` rejects a command for disallowed
shell syntax, the raised error's message is exactly
`Container exec command contains unsupported shell syntax` (hence
contains that text), uniformly over both backends. -/
theorem reject_message_uniform (b : Backend) (env : SpawnCall → ProcOutcome)
    (req : ExecRequest) (h : tokenize req.command = none) :
    (execInContainer b env req).1 =
      Except.error (EngineError.shellSyntaxError
        "Container exec command contains unsupported shell syntax") := by
  rw [execInContainer_of_tokenize_none b env req h]
  rfl

/-- Witness for C10: the rejection message on both backends at the test
scenario `echo ok; whoami`. -/
theorem reject_message_uniform_witness :
    (execInContainer Backend.docker (fun _ => ProcOutcome.unreachable)
        { containerId := "cid-3", command := "echo ok; whoami" }).1 =
      Except.error (EngineError.shellSyntaxError
        "Container exec command contains unsupported shell syntax") ∧
    (execInContainer Backend.appleContainer (fun _ => ProcOutcome.unreachable)
        { containerId := "cid-3", command := "echo ok; whoami" }).1 =
      Except.error (EngineError.shellSyntaxError
        "Container exec command contains unsupported shell syntax") :=
  ⟨reject_message_uniform Backend.docker (fun _ => ProcOutcome.unreachable)
      { containerId := "cid-3", command := "echo ok; whoami" } (by decide),
    reject_message_uniform Backend.appleContainer
      (fun _ => ProcOutcome.unreachable)
      { containerId := "cid-3", command := "echo ok; whoami" } (by decide)⟩

/-- A plain character: not whitespace, not a metacharacter, not a quote.
A token made only of plain characters needs no quoting. -/
def plainChar (c : Char) : Bool := !(isWs c || isMeta c || isQuoteChar c)

/-- A plain token: non-empty and made only of plain characters; such a
token survives joining with spaces and re-tokenization unchanged. -/
def plainToken (t : String) : Bool := !(t.data.isEmpty) && t.data.all plainChar

/-- Joining tokens with single spaces, as in the spec's round-trip
invariant. -/
def joinSpaces : List String → String
  | [] => ""
  | [t] => t
  | t :: rest => t ++ " " ++ joinSpaces rest

/-- Unpacking `plainChar`. -/
theorem plainChar_facts {c : Char} (h : plainChar c = true) :
    ¬ c = squoteChar ∧ ¬ c = dquoteChar ∧ ¬ isWs c = true ∧
      ¬ isMeta c = true := by
  simp only [plainChar, isQuoteChar, Bool.not_eq_true', Bool.or_eq_false_iff,
    decide_eq_false_iff_not] at h
  exact ⟨h.2.1, h.2.2, by simp [h.1.1], by simp [h.1.2]⟩

/-- Scanning a run of plain characters appends them to the current token
and marks a token in progress. -/
theorem tokenizeAux_plain_run :
    ∀ (l r acc : List Char) (started : Bool), l.all plainChar = true →
      tokenizeAux (l ++ r) .plain acc started =
        tokenizeAux r .plain (l.reverse ++ acc) (started || !l.isEmpty)
  | [], r, acc, started, _ => by simp
  | c :: l', r, acc, started, h => by
      rw [List.all_cons, Bool.and_eq_true] at h
      obtain ⟨hsq, hdq, hws, hmt⟩ := plainChar_facts h.1
      have step : tokenizeAux ((c :: l') ++ r) .plain acc started =
          tokenizeAux (l' ++ r) .plain (c :: acc) true := by
        simp [tokenizeAux, hsq, hdq, hws, hmt, List.append_eq]
      rw [step, tokenizeAux_plain_run l' r (c :: acc) true h.2]
      simp

/-- A space after an in-progress token emits the token and restarts. -/
theorem tokenizeAux_space_cons (l acc : List Char) :
    tokenizeAux (' ' :: l) .plain acc true =
      (tokenizeAux l .plain [] false).map
        (fun toks => String.mk acc.reverse :: toks) := rfl

/-- Rebuilding a string from its character list is the identity. -/
theorem string_mk_data (s : String) : String.mk s.data = s := rfl

/-- Tokenizing the space-join of plain tokens recovers exactly those
tokens. -/
theorem tokenize_joinSpaces_plain :
    ∀ (toks : List String), toks.all plainToken = true →
      tokenize (joinSpaces toks) = some toks
  | [], _ => rfl
  | [t], h => by
      rw [List.all_cons, Bool.and_eq_true] at h
      rw [plainToken, Bool.and_eq_true, Bool.not_eq_true'] at h
      show tokenizeAux t.data .plain [] false = some [t]
      rw [← List.append_nil t.data,
        tokenizeAux_plain_run t.data [] [] false h.1.2]
      simp only [tokenizeAux, List.append_nil]
      rw [if_pos]
      · simp
      · simp [h.1.1]
  | t :: u :: rest, h => by
      rw [List.all_cons, Bool.and_eq_true] at h
      have hplain := h.1
      rw [plainToken, Bool.and_eq_true, Bool.not_eq_true'] at hplain
      have hdata : (joinSpaces (t :: u :: rest)).data =
          t.data ++ (' ' :: (joinSpaces (u :: rest)).data) := by
        show (t ++ " " ++ joinSpaces (u :: rest)).data = _
        simp [String.data_append]
      show tokenizeAux (joinSpaces (t :: u :: rest)).data .plain [] false =
        some (t :: u :: rest)
      rw [hdata, tokenizeAux_plain_run t.data _ [] false hplain.2]
      have hne : (!t.data.isEmpty) = true := by
        simp [hplain.1]
      rw [List.append_nil, Bool.false_or, hne, tokenizeAux_space_cons,
        show tokenizeAux (joinSpaces (u :: rest)).data .plain [] false =
            some (u :: rest) from tokenize_joinSpaces_plain (u :: rest) h.2]
      simp [string_mk_data]

/-- A non-empty accumulator of plain characters emits a plain token. -/
theorem plainToken_of_acc {acc : List Char} (hacc : acc.all plainChar = true)
    (hne : acc.isEmpty = false) :
    plainToken (String.mk acc.reverse) = true := by
  rw [plainToken, Bool.and_eq_true]
  constructor
  · cases acc with
    | nil => cases hne
    | cons a l => simp
  · simpa using hacc

/-- On quote-free input, every token the tokenizer produces is plain:
non-empty and free of whitespace, metacharacters and quotes. -/
theorem tokenizeAux_plain_tokens :
    ∀ (l acc : List Char) (started : Bool) (toks : List String),
      l.all (fun c => !(isQuoteChar c)) = true →
      acc.all plainChar = true →
      (started = true → acc.isEmpty = false) →
      tokenizeAux l .plain acc started = some toks →
      toks.all plainToken = true
  | [], acc, started, toks, _, hacc, hst, htok => by
      cases started with
      | false =>
          simp only [tokenizeAux, if_neg] at htok
          simp at htok
          subst htok
          rfl
      | true =>
          simp only [tokenizeAux, if_pos] at htok
          simp at htok
          subst htok
          simp [plainToken_of_acc hacc (hst rfl)]
  | c :: l', acc, started, toks, hq, hacc, hst, htok => by
      rw [List.all_cons, Bool.and_eq_true] at hq
      have hcq := hq.1
      rw [Bool.not_eq_true', isQuoteChar, Bool.or_eq_false_iff,
        decide_eq_false_iff_not, decide_eq_false_iff_not] at hcq
      obtain ⟨hsq, hdq⟩ := hcq
      by_cases hws : isWs c = true
      · simp only [tokenizeAux, hsq, hdq, hws, if_false, if_true] at htok
        cases started with
        | false =>
            exact tokenizeAux_plain_tokens l' [] false toks hq.2 rfl
              (fun h => by cases h) htok
        | true =>
            cases hrec : tokenizeAux l' QMode.plain [] false with
            | none =>
                rw [hrec] at htok
                simp at htok
            | some toks' =>
                rw [hrec] at htok
                simp at htok
                subst htok
                rw [List.all_cons, Bool.and_eq_true]
                exact ⟨plainToken_of_acc hacc (hst rfl),
                  tokenizeAux_plain_tokens l' [] false toks' hq.2 rfl
                    (fun h => by cases h) hrec⟩
      · by_cases hmt : isMeta c = true
        · simp only [tokenizeAux, hsq, hdq, hws, hmt, if_false, if_true]
            at htok
          exact Option.noConfusion htok
        · have hpc : plainChar c = true := by
            rw [Bool.not_eq_true] at hws hmt
            simp [plainChar, isQuoteChar, hws, hmt, hsq, hdq]
          simp only [tokenizeAux, hsq, hdq, hws, hmt, if_false] at htok
          exact tokenizeAux_plain_tokens l' (c :: acc) true toks hq.2
            (by rw [List.all_cons, Bool.and_eq_true]; exact ⟨hpc, hacc⟩)
            (fun _ => rfl) htok

/-- **C8.** For every command string free of quoting edge cases (no quote
characters) that the tokenizer accepts, joining the resulting tokens
with single spaces and tokenizing again yields the same argument
vector. -/
theorem retokenize_joined (s : String) (toks : List String)
    (hq : s.data.all (fun c => !(isQuoteChar c)) = true)
    (haccept : tokenize s = some toks) :
    tokenize (joinSpaces toks) = some toks :=
  tokenize_joinSpaces_plain toks
    (tokenizeAux_plain_tokens s.data [] false toks hq rfl
      (fun h => by cases h) haccept)

/-- Witness for C8 at `echo hi`. -/
theorem retokenize_joined_witness :
    tokenize (joinSpaces ["echo", "hi"]) = some ["echo", "hi"] :=
  retokenize_joined "echo hi" ["echo", "hi"] (by decide) (by decide)

/-- A trailing space never changes the tokenization, from any scanner
state. -/
theorem tokenizeAux_append_space :
    ∀ (l : List Char) (m : QMode) (acc : List Char) (started : Bool),
      tokenizeAux (l ++ [' ']) m acc started = tokenizeAux l m acc started
  | [], m, acc, started => by
      cases m with
      | plain => cases started <;> rfl
      | inSingle => rfl
      | inDouble => rfl
  | c :: l', m, acc, started => by
      cases m with
      | plain =>
          by_cases hsq : c = squoteChar
          · simp [tokenizeAux, hsq, List.append_eq,
              tokenizeAux_append_space l' .inSingle acc true]
          · by_cases hdq : c = dquoteChar
            · have hds : ¬ dquoteChar = squoteChar := by decide
              simp [tokenizeAux, hsq, hdq, hds, List.append_eq,
                tokenizeAux_append_space l' .inDouble acc true]
            · by_cases hws : isWs c = true
              · cases started <;>
                  simp [tokenizeAux, hsq, hdq, hws, List.append_eq,
                    tokenizeAux_append_space l' .plain [] false]
              · by_cases hmt : isMeta c = true
                · simp [tokenizeAux, hsq, hdq, hws, hmt, List.append_eq]
                · simp [tokenizeAux, hsq, hdq, hws, hmt, List.append_eq,
                    tokenizeAux_append_space l' .plain (c :: acc) true]
      | inSingle =>
          by_cases hsq : c = squoteChar
          · simp [tokenizeAux, hsq, List.append_eq,
              tokenizeAux_append_space l' .plain acc started]
          · simp [tokenizeAux, hsq, List.append_eq,
              tokenizeAux_append_space l' .inSingle (c :: acc) started]
      | inDouble =>
          by_cases hdq : c = dquoteChar
          · simp [tokenizeAux, hdq, List.append_eq,
              tokenizeAux_append_space l' .plain acc started]
          · simp [tokenizeAux, hdq, List.append_eq,
              tokenizeAux_append_space l' .inDouble (c :: acc) started]

/-- **C9.** Whitespace edge behaviour of the tokenizer: the empty string
yields the empty vector; a leading space and a trailing space produce no
tokens; a run of two consecutive spaces behaves as a single token
boundary from any scanner position; and on quote-free input no empty
token is ever produced. -/
theorem tokenize_whitespace_edges :
    tokenize "" = some [] ∧
    (∀ s : String, tokenize (" " ++ s) = tokenize s) ∧
    (∀ s : String, tokenize (s ++ " ") = tokenize s) ∧
    (∀ (l acc : List Char) (started : Bool),
      tokenizeAux (' ' :: ' ' :: l) .plain acc started =
        tokenizeAux (' ' :: l) .plain acc started) ∧
    (∀ (s : String) (toks : List String),
      s.data.all (fun c => !(isQuoteChar c)) = true →
      tokenize s = some toks →
      toks.all (fun t => !(t.data.isEmpty)) = true) := by
  refine ⟨rfl, fun s => rfl, fun s => ?_, fun l acc started => ?_,
    fun s toks hq htok => ?_⟩
  · show tokenizeAux (s ++ " ").data .plain [] false =
      tokenizeAux s.data .plain [] false
    rw [show (s ++ " ").data = s.data ++ [' '] from by
      rw [String.data_append]]
    exact tokenizeAux_append_space s.data .plain [] false
  · cases started <;> rfl
  · have hpl := tokenizeAux_plain_tokens s.data [] false toks hq rfl
      (fun h => by cases h) htok
    simp only [List.all_eq_true] at hpl ⊢
    intro t ht
    have h2 := hpl t ht
    rw [plainToken, Bool.and_eq_true] at h2
    exact h2.1

/-- Witness for C9 at concrete strings. -/
theorem tokenize_whitespace_edges_witness :
    tokenize (" " ++ "ab") = tokenize "ab" ∧
    tokenize ("ab" ++ " ") = tokenize "ab" ∧
    (["ab"] : List String).all (fun t => !(t.data.isEmpty)) = true :=
  ⟨tokenize_whitespace_edges.2.1 "ab",
    tokenize_whitespace_edges.2.2.1 "ab",
    tokenize_whitespace_edges.2.2.2.2 "ab" ["ab"] (by decide) (by decide)⟩

end SandboxEngine
